import Mathlib

/-!
Verification of the staged-file-edit workflow of the `llm-tool` repository.

The development shallowly embeds the Go code of `internal/fileutil/fileutil.go`
(the staging area: `StageFile`, `Cleanup`, `ShowDiff`, `displayDiff`,
`manualDiff`, `ApplyChanges`, `ReadFileContent`, `highlightContent`) and the
edit-command orchestration of the `cli` package (`editCmd.RunE`, `fileExists`).

Modelling conventions:
- The filesystem is a map from path strings to optional file contents,
  together with oracles saying which writes and directory creations succeed
  (`os.WriteFile` / `os.MkdirAll` failures such as permission errors).
- Console output is collected as a list of printed lines.
- The external `diff` tool is modelled by an availability flag and the exit
  codes of its colored and colorless invocations; its own stdout goes
  directly to the terminal in the Go code and is not collected.
- `ShowDiff` additionally records the list of entries it visits, in order,
  so that iteration order is observable.
- Go's `defer stagingArea.Cleanup()` is modelled by running `Cleanup` once,
  after the body, on every exit path; the model reports how many times
  cleanup ran.  (`os.RemoveAll` is modelled as always succeeding; the Go
  code discards its error.)
-/

namespace LlmTool

/-- Errors produced by the workflow: each constructor records the data the
Go error message interpolates (`fmt.Errorf`). -/
inductive IOErr where
  | mkdirFail (dir : String)
  | writeFail (path : String)
  | readFail (path : String)
  | diffFail
  | providerFail (file : String)
deriving DecidableEq, Repr

/-- The filesystem: contents of files plus success oracles for writes and
directory creation (modelling disk-full / permission failures). -/
structure FS where
  files : String → Option String
  writeOk : String → Bool
  mkdirOk : String → Bool

/-- `os.WriteFile`: full replacement of the contents at `p`, or failure if
the oracle denies the write (the file map is unchanged on failure). -/
def FS.write (fs : FS) (p c : String) : Except IOErr FS :=
  if fs.writeOk p then
    .ok { fs with files := fun q => if q = p then some c else fs.files q }
  else .error (.writeFail p)

/-- `os.MkdirAll`: directory creation; directories themselves are not part
of the file map, so success leaves the filesystem unchanged. -/
def FS.mkdirAll (fs : FS) (d : String) : Except IOErr FS :=
  if fs.mkdirOk d then .ok fs else .error (.mkdirFail d)

/-- `os.ReadFile`: returns the contents at `p`, or an error when absent. -/
def FS.read (fs : FS) (p : String) : Except IOErr String :=
  match fs.files p with
  | some c => .ok c
  | none => .error (.readFail p)

/-- Splits a character list at `/` separators (helper for `filepath.Base`
and `filepath.Dir`). -/
def segsAux : List Char → List Char → List (List Char)
  | cur, [] => [cur.reverse]
  | cur, c :: cs => if c = '/' then cur.reverse :: segsAux [] cs else segsAux (c :: cur) cs

/-- `filepath.Base`: last non-empty path element (`"."` for an empty path). -/
def pathBase (p : String) : String :=
  match ((segsAux [] p.data).filter (fun s => s ≠ [])).getLast? with
  | some s => String.mk s
  | none => "."

/-- `filepath.Dir`: everything before the last path element (`"."` when the
path has a single element). -/
def pathDir (p : String) : String :=
  match (segsAux [] p.data).dropLast with
  | [] => "."
  | ds => String.intercalate "/" (ds.map (fun s => String.mk s))

/-- `filepath.Join dir name` for a clean directory and a clean base name. -/
def pathJoin (dir name : String) : String := dir ++ "/" ++ name

/-- Whether the character list `l` starts the character list `m`. -/
def charsLead : List Char → List Char → Bool
  | [], _ => true
  | _ :: _, [] => false
  | a :: as, b :: bs => a == b && charsLead as bs

/-- Whether path `p` lies strictly inside directory `dir`. -/
def underDir (dir p : String) : Bool := charsLead (dir ++ "/").data p.data

/-- Go struct `StagedFile`: a file that has been processed and is staged
for update. -/
structure StagedFile where
  OriginalPath : String
  StagedPath : String
  Content : String
  IsNew : Bool
deriving DecidableEq, Repr

/-- Go struct `StagingArea`: the ordered staged entries and the ephemeral
staging directory. -/
structure StagingArea where
  Files : List StagedFile
  StagingDir : String
deriving DecidableEq, Repr

/-- `StagingArea.StageFile`: computes the scratch path (both Go branches
compute `filepath.Join(sa.StagingDir, filepath.Base(originalPath))`),
ensures the scratch parent directory exists, writes the content to the
scratch file and appends the new entry to the list.  On failure nothing is
appended and the filesystem is unchanged. -/
def StageFile (sa : StagingArea) (fs : FS) (originalPath content : String)
    (isNew : Bool) : Except IOErr (StagingArea × FS × StagedFile) :=
  let stagedPath :=
    if isNew then pathJoin sa.StagingDir (pathBase originalPath)
    else pathJoin sa.StagingDir (pathBase originalPath)
  match fs.mkdirAll (pathDir stagedPath) with
  | .error e => .error e
  | .ok fs1 =>
    match fs1.write stagedPath content with
    | .error e => .error e
    | .ok fs2 =>
      let f : StagedFile := ⟨originalPath, stagedPath, content, isNew⟩
      .ok ({ sa with Files := sa.Files ++ [f] }, fs2, f)

/-- `StagingArea.Cleanup`: `os.RemoveAll(sa.StagingDir)` — removes the
staging directory and everything inside it. -/
def Cleanup (sa : StagingArea) (fs : FS) : FS :=
  { fs with files := fun p => if underDir sa.StagingDir p then none else fs.files p }

/-- Environment describing the external `diff` tool: whether `exec.LookPath`
finds it, and the exit codes of the `--color=always` invocation and of the
colorless retry on a given pair of files (a crash / start failure is the
exit code `-1`, as reported by Go's `ProcessState.ExitCode`). -/
structure DiffEnv where
  diffAvailable : Bool
  colorExit : String → String → Int
  plainExit : String → String → Int

/-- `manualDiff`: fallback rendering when the `diff` command is not
available — reads both files and prints them in full, labelled. -/
def manualDiff (fs : FS) (originalPath stagedPath : String) :
    Except IOErr (List String) :=
  match fs.read originalPath with
  | .error e => .error e
  | .ok original =>
    match fs.read stagedPath with
    | .error e => .error e
    | .ok staged =>
      .ok ["--- " ++ originalPath, "+++ " ++ stagedPath,
           "Original:", original, "Modified:", staged]

/-- `displayDiff`: runs the external diff tool when available (its stdout
goes straight to the terminal, so no lines are collected here); exit code 1
("files differ") is not an error; on any other nonzero status the colorless
retry runs, and only when that also exits with a status other than 0 or 1 is
an error returned.  Without the tool it falls back to `manualDiff`. -/
def displayDiff (denv : DiffEnv) (fs : FS) (originalPath stagedPath : String) :
    Except IOErr (List String) :=
  if denv.diffAvailable then
    if denv.colorExit originalPath stagedPath ≠ 0 ∧
        denv.colorExit originalPath stagedPath ≠ 1 then
      if denv.plainExit originalPath stagedPath ≠ 0 ∧
          denv.plainExit originalPath stagedPath ≠ 1 then
        .error .diffFail
      else .ok []
    else .ok []
  else manualDiff fs originalPath stagedPath

/-- `highlightContent`: prints the content (in green) — one output line. -/
def highlightContent (content : String) : List String := [content]

/-- The `for` loop of `StagingArea.ShowDiff`, front to back over the staged
entries.  Returns the printed lines, the `OriginalPath`s of the entries it
visited (in visiting order), and the error that stopped it, if any. -/
def showList (denv : DiffEnv) (fs : FS) :
    List StagedFile → List String × List String × Option IOErr
  | [] => ([], [], none)
  | f :: rest =>
    if f.IsNew then
      let r := showList denv fs rest
      (("New file: " ++ f.OriginalPath) :: (highlightContent f.Content ++ r.1),
       f.OriginalPath :: r.2.1, r.2.2)
    else
      match displayDiff denv fs f.OriginalPath f.StagedPath with
      | .error e => ([], [f.OriginalPath], some e)
      | .ok d =>
        let r := showList denv fs rest
        (("Diff for " ++ f.OriginalPath ++ ":") :: (d ++ r.1),
         f.OriginalPath :: r.2.1, r.2.2)

/-- `StagingArea.ShowDiff`: displays the diff for every staged entry. -/
def ShowDiff (denv : DiffEnv) (sa : StagingArea) (fs : FS) :
    List String × List String × Option IOErr :=
  showList denv fs sa.Files

/-- The `for` loop of `StagingArea.ApplyChanges`, front to back: for each
entry, ensure the parent directory of `OriginalPath` exists, then overwrite
`OriginalPath` with `Content` in full.  Returns the filesystem reached
(writes before a failure persist), the progress lines printed, and the error
that stopped it, if any — the loop stops at the first failure. -/
def applyList (fs : FS) : List StagedFile → FS × List String × Option IOErr
  | [] => (fs, [], none)
  | f :: rest =>
    match fs.mkdirAll (pathDir f.OriginalPath) with
    | .error e => (fs, [], some e)
    | .ok fs1 =>
      match fs1.write f.OriginalPath f.Content with
      | .error e => (fs1, [], some e)
      | .ok fs2 =>
        let r := applyList fs2 rest
        (r.1, ("Applied changes to: " ++ f.OriginalPath) :: r.2.1, r.2.2)

/-- `StagingArea.ApplyChanges`: writes all staged changes to their original
locations, in staging order. -/
def ApplyChanges (sa : StagingArea) (fs : FS) : FS × List String × Option IOErr :=
  applyList fs sa.Files

/-- `fileutil.ReadFileContent`: reads a file, or stdin when the name is
`"-"`. -/
def ReadFileContent (stdin : String) (fs : FS) (filename : String) :
    Except IOErr String :=
  if filename = "-" then .ok stdin else fs.read filename

/-- `cli.fileExists`: `"-"` never exists; otherwise a file exists when it is
present in the file map (directories are not part of the file map, so the
`!info.IsDir()` half of the Go check is vacuous here). -/
def fileExists (fs : FS) (filename : String) : Bool :=
  if filename = "-" then false
  else (fs.files filename).isSome

/-- Environment of the `edit` command: the provider call
(`client.RefactorFile`, `none` on `ProviderError`), stdin's content, and the
`--output` and `--yes` flags plus the interactive answer. -/
structure EditEnv where
  refactor : String → String → Option String
  stdin : String
  outputDir : String
  applyChanges : Bool
  response : String
  diff : DiffEnv

/-- The destination and `isNew` computation in `editCmd.RunE`:
`isNew := !fileExists(filename) || filename == "-"`; the destination is the
input name, redirected into `--output` when given, and rewritten to
`"output.txt"` when it is a new file still named `"-"`. -/
def outName (env : EditEnv) (fs : FS) (filename : String) : String × Bool :=
  let isNew := !fileExists fs filename || filename == "-"
  let o := if env.outputDir = "" then filename
    else pathJoin env.outputDir (pathBase filename)
  (if isNew && o == "-" then "output.txt" else o, isNew)

/-- One iteration of the per-file loop of `editCmd.RunE`: read the file (or
stdin), call the provider, compute destination and newness, stage the
result.  Any failure aborts with an error (the loop's caller returns
immediately). -/
def processFile (env : EditEnv) (sa : StagingArea) (fs : FS) (filename : String) :
    Except IOErr (StagingArea × FS × List String) :=
  match ReadFileContent env.stdin fs filename with
  | .error e => .error e
  | .ok content =>
    match env.refactor filename content with
    | none => .error (.providerFail filename)
    | some refactored =>
      let dest := outName env fs filename
      match StageFile sa fs dest.1 refactored dest.2 with
      | .error e => .error e
      | .ok r =>
        .ok (r.1, r.2.1,
          ["Processing file: " ++ filename, "✓ Processed " ++ filename])

/-- The per-file loop of `editCmd.RunE`: processes the files in order,
stopping at the first failure (the staging area and filesystem reached so
far are kept; the remaining files are not attempted). -/
def stageLoop (env : EditEnv) (sa : StagingArea) (fs : FS) :
    List String → StagingArea × FS × List String × Option IOErr
  | [] => (sa, fs, [], none)
  | filename :: rest =>
    match processFile env sa fs filename with
    | .error e => (sa, fs, [], some e)
    | .ok r =>
      let t := stageLoop env r.1 r.2.1 rest
      (t.1, t.2.1, r.2.2 ++ t.2.2.1, t.2.2.2)

/-- The body of `editCmd.RunE` after the staging area is created: stage all
files, show the diffs, pass the approval gate (`--yes`, or an interactive
answer of `"y"`/`"Y"`; anything else is a rejection that returns `nil`),
then apply. -/
def editBody (env : EditEnv) (files : List String) (sa₀ : StagingArea)
    (fs₀ : FS) : Except IOErr Unit × StagingArea × FS × List String :=
  let s := stageLoop env sa₀ fs₀ files
  match s.2.2.2 with
  | some e => (.error e, s.1, s.2.1, s.2.2.1)
  | none =>
    let d := ShowDiff env.diff s.1 s.2.1
    match d.2.2 with
    | some e => (.error e, s.1, s.2.1, s.2.2.1)
    | none =>
      if !env.applyChanges && !(env.response == "y") && !(env.response == "Y") then
        (.ok (), s.1, s.2.1, s.2.2.1 ++ d.1 ++ ["Changes not applied."])
      else
        let a := ApplyChanges s.1 s.2.1
        match a.2.2 with
        | some e => (.error e, s.1, a.1, s.2.2.1 ++ d.1 ++ a.2.1)
        | none =>
          (.ok (), s.1, a.1,
           s.2.2.1 ++ d.1 ++ a.2.1 ++ ["All changes applied successfully."])

/-- `editCmd.RunE` with the staging directory already allocated
(`NewStagingArea` succeeded): runs the body, then — modelling
`defer stagingArea.Cleanup()` — runs `Cleanup` exactly once, on every exit
path.  The final `Nat` is the number of times cleanup ran. -/
def editRunE (env : EditEnv) (files : List String) (stagingDir : String)
    (fs : FS) : Except IOErr Unit × FS × List String × Nat :=
  let r := editBody env files ⟨[], stagingDir⟩ fs
  (r.1, Cleanup r.2.1 r.2.2.1, r.2.2.2, 1)

/-- A sequence of direct `StageFile` calls (as the spec's "for any sequence
of stage() calls"), stopping at the first failure. -/
def stageSeq (sa : StagingArea) (fs : FS) :
    List (String × String × Bool) → StagingArea × FS × Option IOErr
  | [] => (sa, fs, none)
  | r :: rest =>
    match StageFile sa fs r.1 r.2.1 r.2.2 with
    | .error e => (sa, fs, some e)
    | .ok s => stageSeq s.1 s.2.1 rest

/-- The content of the last entry staged for path `p`, if any (formalising
the claim's "last entry staged for that path"). -/
def lastContent : List StagedFile → String → Option String
  | [], _ => none
  | f :: rest, p =>
    match lastContent rest p with
    | some c => some c
    | none => if f.OriginalPath = p then some f.Content else none

/-- The lines `ShowDiff` prints for a run of new-file entries: the new-file
marker followed by the full proposed content, per entry. -/
def newFileLines : List StagedFile → List String
  | [] => []
  | f :: rest => ("New file: " ++ f.OriginalPath) :: f.Content :: newFileLines rest

/-! ### Basic lemmas about paths and primitive filesystem operations -/

theorem charsLead_append (l t : List Char) : charsLead l (l ++ t) = true := by
  induction l with
  | nil => rfl
  | cons a as ih => simp [charsLead, ih]

theorem underDir_pathJoin (d b : String) : underDir d (pathJoin d b) = true := by
  have h : (d ++ "/" ++ b).data = (d ++ "/").data ++ b.data := by
    simp [String.data_append]
  simp only [underDir, pathJoin, h]
  exact charsLead_append _ _

theorem FS.write_ok {fs fs' : FS} {p c : String} (h : fs.write p c = .ok fs') :
    fs' = { fs with files := fun q => if q = p then some c else fs.files q } := by
  by_cases hw : fs.writeOk p = true
  · simp [FS.write, hw] at h
    exact h.symm
  · simp [FS.write, Bool.eq_false_iff.mpr hw] at h

theorem FS.mkdirAll_ok {fs fs' : FS} {d : String} (h : fs.mkdirAll d = .ok fs') :
    fs' = fs := by
  by_cases hm : fs.mkdirOk d = true
  · simp [FS.mkdirAll, hm] at h
    exact h.symm
  · simp [FS.mkdirAll, Bool.eq_false_iff.mpr hm] at h

/-- Success shape of `StageFile`: the staged entry is appended at the end,
the staging directory is unchanged, and the filesystem changes only at the
scratch path, which lies inside the staging directory. -/
theorem StageFile_ok {sa : StagingArea} {fs : FS} {p c : String} {n : Bool}
    {r : StagingArea × FS × StagedFile} (h : StageFile sa fs p c n = .ok r) :
    r.2.2 = ⟨p, pathJoin sa.StagingDir (pathBase p), c, n⟩ ∧
    r.1 = { sa with Files := sa.Files ++ [r.2.2] } ∧
    r.2.1.writeOk = fs.writeOk ∧ r.2.1.mkdirOk = fs.mkdirOk ∧
    (∀ q, q ≠ pathJoin sa.StagingDir (pathBase p) → r.2.1.files q = fs.files q) ∧
    r.2.1.files (pathJoin sa.StagingDir (pathBase p)) = some c := by
  unfold StageFile at h
  simp only [ite_self] at h
  cases hm : fs.mkdirAll (pathDir (pathJoin sa.StagingDir (pathBase p))) with
  | error e => simp [hm] at h
  | ok fs1 =>
    simp only [hm] at h
    cases hw : fs1.write (pathJoin sa.StagingDir (pathBase p)) c with
    | error e => simp [hw] at h
    | ok fs2 =>
      simp only [hw] at h
      obtain rfl := FS.mkdirAll_ok hm
      obtain rfl := FS.write_ok hw
      cases h
      refine ⟨rfl, rfl, rfl, rfl, ?_, ?_⟩
      · intro q hq; simp [hq]
      · simp

/-- `StageFile` succeeds outright when the oracles allow the scratch
directory creation and the scratch write, with an explicit result. -/
theorem StageFile_allOk (sa : StagingArea) (fs : FS) (p c : String) (n : Bool)
    (hm : fs.mkdirOk (pathDir (pathJoin sa.StagingDir (pathBase p))) = true)
    (hw : fs.writeOk (pathJoin sa.StagingDir (pathBase p)) = true) :
    StageFile sa fs p c n = .ok
      ({ sa with Files := sa.Files ++ [⟨p, pathJoin sa.StagingDir (pathBase p), c, n⟩] },
       { fs with files := fun q =>
           if q = pathJoin sa.StagingDir (pathBase p) then some c else fs.files q },
       ⟨p, pathJoin sa.StagingDir (pathBase p), c, n⟩) := by
  unfold StageFile
  simp [FS.mkdirAll, FS.write, hm, hw]

/-! ### Lemmas about the apply loop -/

theorem lastContent_cons (f : StagedFile) (rest : List StagedFile) (p : String) :
    lastContent (f :: rest) p =
      match lastContent rest p with
      | some c => some c
      | none => if f.OriginalPath = p then some f.Content else none := rfl

theorem lastContent_eq_none_iff (l : List StagedFile) (p : String) :
    lastContent l p = none ↔ ∀ f ∈ l, f.OriginalPath ≠ p := by
  induction l with
  | nil => simp [lastContent]
  | cons f rest ih =>
    constructor
    · intro h g hg
      unfold lastContent at h
      cases hr : lastContent rest p with
      | some c => rw [hr] at h; exact absurd h (by simp)
      | none =>
        rw [hr] at h
        rcases List.mem_cons.mp hg with rfl | hg'
        · intro hp; rw [if_pos hp] at h; exact absurd h (by simp)
        · exact (ih.mp hr) g hg'
    · intro h
      unfold lastContent
      rw [ih.mpr (fun g hg => h g (List.mem_cons_of_mem _ hg))]
      simp [h f (List.mem_cons_self f rest)]

theorem lastContent_isSome_of_mem {l : List StagedFile} {p : String}
    (h : ∃ f ∈ l, f.OriginalPath = p) : lastContent l p ≠ none := by
  intro hnone
  obtain ⟨f, hf, hp⟩ := h
  exact (lastContent_eq_none_iff l p).mp hnone f hf hp

/-- When the apply loop succeeds, every path it touched holds the content of
the last entry staged for it, and every other path is untouched. -/
theorem applyList_none (l : List StagedFile) (fs : FS)
    (h : (applyList fs l).2.2 = none) (p : String) :
    (applyList fs l).1.files p =
      match lastContent l p with
      | some c => some c
      | none => fs.files p := by
  induction l generalizing fs with
  | nil => simp [applyList, lastContent]
  | cons f rest ih =>
    cases hmo : fs.mkdirOk (pathDir f.OriginalPath) with
    | false =>
      have hstep : applyList fs (f :: rest) =
          (fs, [], some (IOErr.mkdirFail (pathDir f.OriginalPath))) := by
        simp [applyList, FS.mkdirAll, hmo]
      rw [hstep] at h
      exact absurd h (by simp)
    | true =>
      cases hwo : fs.writeOk f.OriginalPath with
      | false =>
        have hstep : applyList fs (f :: rest) =
            (fs, [], some (IOErr.writeFail f.OriginalPath)) := by
          simp [applyList, FS.mkdirAll, FS.write, hmo, hwo]
        rw [hstep] at h
        exact absurd h (by simp)
      | true =>
        have hstep : applyList fs (f :: rest) =
            ((applyList { fs with files := fun q =>
                if q = f.OriginalPath then some f.Content else fs.files q } rest).1,
             ("Applied changes to: " ++ f.OriginalPath) ::
               (applyList { fs with files := fun q =>
                 if q = f.OriginalPath then some f.Content else fs.files q } rest).2.1,
             (applyList { fs with files := fun q =>
               if q = f.OriginalPath then some f.Content else fs.files q } rest).2.2) := by
          simp [applyList, FS.mkdirAll, FS.write, hmo, hwo]
        rw [hstep] at h
        simp only [] at h
        have ihr := ih _ h
        rw [hstep]
        simp only [] at ihr ⊢
        rw [ihr, lastContent_cons]
        cases hr : lastContent rest p with
        | some c => simp only [hr]
        | none =>
          simp only [hr]
          by_cases hp : f.OriginalPath = p
          · simp [hp]
          · have hps : p ≠ f.OriginalPath := fun hq => hp hq.symm
            simp [hp, hps]

/-- When the apply loop fails, the staged list splits into a successfully
applied prefix, the failing entry (named by the error), and an unattempted
suffix; the filesystem reached is exactly the one of the prefix-only run,
and one progress line was printed per applied entry. -/
theorem applyList_some (l : List StagedFile) (fs : FS) (e : IOErr)
    (h : (applyList fs l).2.2 = some e) :
    ∃ pre f post, l = pre ++ f :: post ∧
      (applyList fs l).2.1.length = pre.length ∧
      (applyList fs pre).2.2 = none ∧
      (e = IOErr.mkdirFail (pathDir f.OriginalPath) ∨ e = IOErr.writeFail f.OriginalPath) ∧
      (applyList fs l).1 = (applyList fs pre).1 := by
  induction l generalizing fs with
  | nil => simp [applyList] at h
  | cons f rest ih =>
    cases hmo : fs.mkdirOk (pathDir f.OriginalPath) with
    | false =>
      have hstep : applyList fs (f :: rest) =
          (fs, [], some (IOErr.mkdirFail (pathDir f.OriginalPath))) := by
        simp [applyList, FS.mkdirAll, hmo]
      rw [hstep] at h
      simp only [] at h
      obtain rfl : IOErr.mkdirFail (pathDir f.OriginalPath) = e := by simpa using h
      exact ⟨[], f, rest, rfl, by simp [hstep], by simp [applyList],
        Or.inl rfl, by rw [hstep]; simp [applyList]⟩
    | true =>
      cases hwo : fs.writeOk f.OriginalPath with
      | false =>
        have hstep : applyList fs (f :: rest) =
            (fs, [], some (IOErr.writeFail f.OriginalPath)) := by
          simp [applyList, FS.mkdirAll, FS.write, hmo, hwo]
        rw [hstep] at h
        simp only [] at h
        obtain rfl : IOErr.writeFail f.OriginalPath = e := by simpa using h
        exact ⟨[], f, rest, rfl, by simp [hstep], by simp [applyList],
          Or.inr rfl, by rw [hstep]; simp [applyList]⟩
      | true =>
        have hstep : applyList fs (f :: rest) =
            ((applyList { fs with files := fun q =>
                if q = f.OriginalPath then some f.Content else fs.files q } rest).1,
             ("Applied changes to: " ++ f.OriginalPath) ::
               (applyList { fs with files := fun q =>
                 if q = f.OriginalPath then some f.Content else fs.files q } rest).2.1,
             (applyList { fs with files := fun q =>
               if q = f.OriginalPath then some f.Content else fs.files q } rest).2.2) := by
          simp [applyList, FS.mkdirAll, FS.write, hmo, hwo]
        rw [hstep] at h
        simp only [] at h
        obtain ⟨pre, g, post, hsplit, hlen, hpre, herr, hfs⟩ := ih _ h
        have hstep2 : applyList fs (f :: pre) =
            ((applyList { fs with files := fun q =>
                if q = f.OriginalPath then some f.Content else fs.files q } pre).1,
             ("Applied changes to: " ++ f.OriginalPath) ::
               (applyList { fs with files := fun q =>
                 if q = f.OriginalPath then some f.Content else fs.files q } pre).2.1,
             (applyList { fs with files := fun q =>
               if q = f.OriginalPath then some f.Content else fs.files q } pre).2.2) := by
          simp [applyList, FS.mkdirAll, FS.write, hmo, hwo]
        refine ⟨f :: pre, g, post, by rw [hsplit]; rfl, ?_, ?_, herr, ?_⟩
        · rw [hstep]
          simpa using hlen
        · rw [hstep2]
          simpa using hpre
        · rw [hstep, hstep2]
          simpa using hfs

/-! ### Lemmas about the diff loop, the staging loop and the orchestrator -/

/-- A successful `ShowDiff` pass visits exactly the staged entries, in list
order. -/
theorem showList_none_visits (denv : DiffEnv) (fs : FS) (l : List StagedFile)
    (h : (showList denv fs l).2.2 = none) :
    (showList denv fs l).2.1 = l.map (fun f => f.OriginalPath) := by
  induction l with
  | nil => simp [showList]
  | cons f rest ih =>
    cases hn : f.IsNew with
    | true =>
      have hstep : showList denv fs (f :: rest) =
          (("New file: " ++ f.OriginalPath) ::
             (highlightContent f.Content ++ (showList denv fs rest).1),
           f.OriginalPath :: (showList denv fs rest).2.1,
           (showList denv fs rest).2.2) := by
        simp [showList, hn]
      rw [hstep] at h ⊢
      simp only [] at h ⊢
      rw [ih h]
      rfl
    | false =>
      cases hd : displayDiff denv fs f.OriginalPath f.StagedPath with
      | error e =>
        have hstep : showList denv fs (f :: rest) = ([], [f.OriginalPath], some e) := by
          simp [showList, hn, hd]
        rw [hstep] at h
        exact absurd h (by simp)
      | ok d =>
        have hstep : showList denv fs (f :: rest) =
            (("Diff for " ++ f.OriginalPath ++ ":") :: (d ++ (showList denv fs rest).1),
             f.OriginalPath :: (showList denv fs rest).2.1,
             (showList denv fs rest).2.2) := by
          simp [showList, hn, hd]
        rw [hstep] at h ⊢
        simp only [] at h ⊢
        rw [ih h]
        rfl

/-- A successful sequence of `StageFile` calls appends its requests' paths
to the entry list, in request order. -/
theorem stageSeq_none_paths (sa : StagingArea) (fs : FS)
    (reqs : List (String × String × Bool))
    (h : (stageSeq sa fs reqs).2.2 = none) :
    (stageSeq sa fs reqs).1.Files.map (fun f => f.OriginalPath) =
      sa.Files.map (fun f => f.OriginalPath) ++ reqs.map (fun r => r.1) := by
  induction reqs generalizing sa fs with
  | nil => simp [stageSeq]
  | cons q rest ih =>
    cases hS : StageFile sa fs q.1 q.2.1 q.2.2 with
    | error e =>
      have hstep : stageSeq sa fs (q :: rest) = (sa, fs, some e) := by
        simp [stageSeq, hS]
      rw [hstep] at h
      exact absurd h (by simp)
    | ok s =>
      have hstep : stageSeq sa fs (q :: rest) = stageSeq s.1 s.2.1 rest := by
        simp [stageSeq, hS]
      rw [hstep] at h ⊢
      obtain ⟨hent, hsa, -⟩ := StageFile_ok hS
      rw [ih _ _ h, hsa, hent]
      simp

/-- Success shape of one iteration of the per-file edit loop: the staging
directory is unchanged, exactly one entry is appended, the filesystem
changes only inside the staging directory, and the oracles persist. -/
theorem processFile_ok {env : EditEnv} {sa : StagingArea} {fs : FS} {fn : String}
    {r : StagingArea × FS × List String} (h : processFile env sa fs fn = .ok r) :
    r.1.StagingDir = sa.StagingDir ∧
    r.2.1.writeOk = fs.writeOk ∧ r.2.1.mkdirOk = fs.mkdirOk ∧
    (∀ q, underDir sa.StagingDir q = false → r.2.1.files q = fs.files q) ∧
    (∃ ent, r.1.Files = sa.Files ++ [ent]) := by
  unfold processFile at h
  cases hr : ReadFileContent env.stdin fs fn with
  | error e => simp [hr] at h
  | ok content =>
    simp only [hr] at h
    cases hg : env.refactor fn content with
    | none => simp [hg] at h
    | some refactored =>
      simp only [hg] at h
      cases hS : StageFile sa fs (outName env fs fn).1 refactored (outName env fs fn).2 with
      | error e => simp [hS] at h
      | ok s =>
        simp only [hS] at h
        obtain ⟨hent, hsa, hwo, hmo, hframe, -⟩ := StageFile_ok hS
        cases h
        refine ⟨by rw [hsa], by rw [hwo], by rw [hmo], ?_, ⟨s.2.2, by rw [hsa]⟩⟩
        intro q hq
        apply hframe
        intro hqeq
        rw [hqeq] at hq
        rw [underDir_pathJoin] at hq
        exact absurd hq (by simp)

/-- The staging loop preserves the staging directory and touches the
filesystem only inside it. -/
theorem stageLoop_shape (env : EditEnv) (sa : StagingArea) (fs : FS)
    (l : List String) :
    (stageLoop env sa fs l).1.StagingDir = sa.StagingDir ∧
    (∀ q, underDir sa.StagingDir q = false →
      (stageLoop env sa fs l).2.1.files q = fs.files q) := by
  induction l generalizing sa fs with
  | nil => exact ⟨rfl, fun q _ => rfl⟩
  | cons fn rest ih =>
    cases hp : processFile env sa fs fn with
    | error e =>
      have hstep : stageLoop env sa fs (fn :: rest) = (sa, fs, [], some e) := by
        simp [stageLoop, hp]
      rw [hstep]
      exact ⟨rfl, fun q _ => rfl⟩
    | ok r =>
      have hstep : stageLoop env sa fs (fn :: rest) =
          ((stageLoop env r.1 r.2.1 rest).1,
           (stageLoop env r.1 r.2.1 rest).2.1,
           r.2.2 ++ (stageLoop env r.1 r.2.1 rest).2.2.1,
           (stageLoop env r.1 r.2.1 rest).2.2.2) := by
        simp [stageLoop, hp]
      obtain ⟨hdir, -, -, hframe, -⟩ := processFile_ok hp
      obtain ⟨ihdir, ihframe⟩ := ih r.1 r.2.1
      rw [hstep]
      refine ⟨by rw [ihdir, hdir], ?_⟩
      intro q hq
      have h1 : (stageLoop env r.1 r.2.1 rest).2.1.files q = r.2.1.files q := by
        apply ihframe
        rw [hdir]
        exact hq
      rw [h1]
      exact hframe q hq

/-- The staging area coming out of the edit body is the one produced by the
staging loop, on every control path. -/
theorem editBody_sa (env : EditEnv) (files : List String) (sa : StagingArea)
    (fs : FS) :
    (editBody env files sa fs).2.1 = (stageLoop env sa fs files).1 := by
  unfold editBody
  cases h1 : (stageLoop env sa fs files).2.2.2 with
  | some e => simp [h1]
  | none =>
    simp only [h1]
    cases h2 : (ShowDiff env.diff (stageLoop env sa fs files).1
        (stageLoop env sa fs files).2.1).2.2 with
    | some e => simp [h2]
    | none =>
      simp only [h2]
      split
      · rfl
      · cases h3 : (ApplyChanges (stageLoop env sa fs files).1
            (stageLoop env sa fs files).2.1).2.2 with
        | some e => simp [h3]
        | none => simp [h3]

/-! ### Claim theorems -/

/-- C1: after a successful `ApplyChanges`, the file at a staged entry's
`OriginalPath` holds exactly the in-memory content of the last entry staged
for that path (a full replacement, not a patch); `ApplyChanges` iterates the
append-only entry list in staging order, so the last writer wins. -/
theorem applyChanges_last_staged_wins (sa : StagingArea) (fs : FS) (p : String)
    (h : (ApplyChanges sa fs).2.2 = none)
    (hp : ∃ f ∈ sa.Files, f.OriginalPath = p) :
    (ApplyChanges sa fs).1.files p = lastContent sa.Files p ∧
    (lastContent sa.Files p).isSome = true := by
  simp only [ApplyChanges] at h ⊢
  have hsome := lastContent_isSome_of_mem hp
  cases hl : lastContent sa.Files p with
  | none => exact absurd hl hsome
  | some c =>
    have h1 := applyList_none sa.Files fs h p
    rw [hl] at h1
    exact ⟨by rw [h1], by simp⟩

def c1FS : FS :=
  ⟨fun p => if p = "a.txt" then some "old" else none, fun _ => true, fun _ => true⟩

def c1SA : StagingArea :=
  ⟨[⟨"a.txt", "tmp/a.txt", "first", false⟩, ⟨"a.txt", "tmp/a.txt", "second", false⟩],
   "tmp"⟩

theorem applyChanges_last_staged_wins_witness :
    (ApplyChanges c1SA c1FS).2.2 = none ∧
    (∃ f ∈ c1SA.Files, f.OriginalPath = "a.txt") ∧
    ((ApplyChanges c1SA c1FS).1.files "a.txt" = lastContent c1SA.Files "a.txt" ∧
      (lastContent c1SA.Files "a.txt").isSome = true) ∧
    lastContent c1SA.Files "a.txt" = some "second" :=
  ⟨by decide, by decide,
   applyChanges_last_staged_wins c1SA c1FS "a.txt" (by decide) (by decide),
   by decide⟩

/-- C2 (amended): `ApplyChanges` is not transactional across files — on a
failure the staged list splits into an already-applied prefix (whose files
remain written, last staged content per path), the failing entry, whose path
the error names, and a suffix that is never attempted (those paths are
untouched); the number of applied files shows up as one progress line per
applied entry, though it is not carried inside the error value itself. -/
theorem applyChanges_partial_application (sa : StagingArea) (fs : FS) (e : IOErr)
    (h : (ApplyChanges sa fs).2.2 = some e) :
    ∃ pre f post, sa.Files = pre ++ f :: post ∧
      (ApplyChanges sa fs).2.1.length = pre.length ∧
      (e = IOErr.mkdirFail (pathDir f.OriginalPath) ∨ e = IOErr.writeFail f.OriginalPath) ∧
      (∀ p, (∃ g ∈ pre, g.OriginalPath = p) →
        (ApplyChanges sa fs).1.files p = lastContent pre p) ∧
      (∀ p, (∀ g ∈ pre, g.OriginalPath ≠ p) →
        (ApplyChanges sa fs).1.files p = fs.files p) := by
  simp only [ApplyChanges] at h ⊢
  obtain ⟨pre, f, post, hsplit, hlen, hpre, herr, hfs⟩ := applyList_some sa.Files fs e h
  refine ⟨pre, f, post, hsplit, hlen, herr, ?_, ?_⟩
  · intro p hp
    have h1 := applyList_none pre fs hpre p
    cases hl : lastContent pre p with
    | none => exact absurd hl (lastContent_isSome_of_mem hp)
    | some c =>
      rw [hl] at h1
      rw [hfs, h1]
  · intro p hp
    have h1 := applyList_none pre fs hpre p
    rw [(lastContent_eq_none_iff pre p).mpr hp] at h1
    rw [hfs, h1]

def c2FS : FS :=
  ⟨fun p => if p = "ok.txt" then some "old" else if p = "fail.txt" then some "keep" else none,
   fun p => !(p == "fail.txt"), fun _ => true⟩

def c2SA : StagingArea :=
  ⟨[⟨"ok.txt", "tmp/ok.txt", "newA", false⟩,
    ⟨"fail.txt", "tmp/fail.txt", "newB", false⟩,
    ⟨"later.txt", "tmp/later.txt", "newC", false⟩], "tmp"⟩

theorem applyChanges_partial_application_witness :
    (ApplyChanges c2SA c2FS).2.2 = some (IOErr.writeFail "fail.txt") ∧
    (∃ pre f post, c2SA.Files = pre ++ f :: post ∧
      (ApplyChanges c2SA c2FS).2.1.length = pre.length ∧
      (IOErr.writeFail "fail.txt" = IOErr.mkdirFail (pathDir f.OriginalPath) ∨
        IOErr.writeFail "fail.txt" = IOErr.writeFail f.OriginalPath) ∧
      (∀ p, (∃ g ∈ pre, g.OriginalPath = p) →
        (ApplyChanges c2SA c2FS).1.files p = lastContent pre p) ∧
      (∀ p, (∀ g ∈ pre, g.OriginalPath ≠ p) →
        (ApplyChanges c2SA c2FS).1.files p = c2FS.files p)) :=
  ⟨by decide,
   applyChanges_partial_application c2SA c2FS (IOErr.writeFail "fail.txt") (by decide)⟩

def c2SAone : StagingArea :=
  ⟨[⟨"fail.txt", "tmp/fail.txt", "newB", false⟩], "tmp"⟩

/-- C2, counterexample to the claim as stated: the error returned by
`ApplyChanges` does not identify how many entries succeeded — a run in
which nothing was applied and a run in which one file was applied return
the very same error value. -/
theorem applyChanges_error_count_not_identified :
    (ApplyChanges c2SAone c2FS).2.2 = (ApplyChanges c2SA c2FS).2.2 ∧
    (ApplyChanges c2SAone c2FS).2.1.length = 0 ∧
    (ApplyChanges c2SA c2FS).2.1.length = 1 := by decide

/-- C3: staging is atomic with respect to the entry list — when the scratch
write for the second of three files is denied, the loop returns that
`IOErr.writeFail`, the third file is never staged, and the entry list holds
exactly the first file's entry, unchanged. -/
theorem stage_failure_aborts (env : EditEnv) (fs₀ : FS)
    (dir f1 f2 f3 c1 c2 r1 r2 d1 sp1 d2 sp2 : String) (fs1 : FS)
    (hm : ∀ d, fs₀.mkdirOk d = true)
    (hd1 : d1 = (outName env fs₀ f1).1)
    (hsp1 : sp1 = pathJoin dir (pathBase d1))
    (hr1 : ReadFileContent env.stdin fs₀ f1 = .ok c1)
    (hg1 : env.refactor f1 c1 = some r1)
    (hw1 : fs₀.writeOk sp1 = true)
    (hfs1 : fs1 = { fs₀ with files := fun q => if q = sp1 then some r1 else fs₀.files q })
    (hd2 : d2 = (outName env fs1 f2).1)
    (hsp2 : sp2 = pathJoin dir (pathBase d2))
    (hr2 : ReadFileContent env.stdin fs1 f2 = .ok c2)
    (hg2 : env.refactor f2 c2 = some r2)
    (hw2 : fs₀.writeOk sp2 = false) :
    (stageLoop env ⟨[], dir⟩ fs₀ [f1, f2, f3]).1.Files =
      [⟨d1, sp1, r1, (outName env fs₀ f1).2⟩] ∧
    (stageLoop env ⟨[], dir⟩ fs₀ [f1, f2, f3]).2.2.2 = some (IOErr.writeFail sp2) := by
  subst hd1 hsp1 hfs1 hd2 hsp2
  have hp1 : processFile env ⟨[], dir⟩ fs₀ f1 = .ok
      (⟨[⟨(outName env fs₀ f1).1, pathJoin dir (pathBase (outName env fs₀ f1).1),
          r1, (outName env fs₀ f1).2⟩], dir⟩,
       { fs₀ with files := fun q =>
           if q = pathJoin dir (pathBase (outName env fs₀ f1).1) then some r1
           else fs₀.files q },
       ["Processing file: " ++ f1, "✓ Processed " ++ f1]) := by
    unfold processFile
    simp only [hr1, hg1]
    rw [StageFile_allOk _ _ _ _ _ (hm _) hw1]
    rfl
  have hp2 : processFile env
      ⟨[⟨(outName env fs₀ f1).1, pathJoin dir (pathBase (outName env fs₀ f1).1),
          r1, (outName env fs₀ f1).2⟩], dir⟩
      { fs₀ with files := fun q =>
          if q = pathJoin dir (pathBase (outName env fs₀ f1).1) then some r1
          else fs₀.files q } f2 =
      .error (IOErr.writeFail (pathJoin dir (pathBase (outName env
        { fs₀ with files := fun q =>
            if q = pathJoin dir (pathBase (outName env fs₀ f1).1) then some r1
            else fs₀.files q } f2).1))) := by
    unfold processFile
    simp only [hr2, hg2]
    unfold StageFile
    simp only [ite_self]
    simp [FS.mkdirAll, FS.write, hm, hw2]
  constructor
  · simp [stageLoop, hp1, hp2]
  · simp [stageLoop, hp1, hp2]

def c3FS : FS :=
  ⟨fun p => if p = "a.txt" then some "A" else if p = "b.txt" then some "B"
      else if p = "c.txt" then some "C" else none,
   fun p => !(p == "tmp/b.txt"), fun _ => true⟩

def c3Env : EditEnv :=
  ⟨fun _ c => some (c ++ "!"), "S", "", false, "n",
   ⟨false, fun _ _ => 0, fun _ _ => 0⟩⟩

def c3FS1 : FS :=
  { c3FS with files := fun q => if q = "tmp/a.txt" then some "A!" else c3FS.files q }

theorem stage_failure_aborts_witness :
    (stageLoop c3Env ⟨[], "tmp"⟩ c3FS ["a.txt", "b.txt", "c.txt"]).1.Files =
      [⟨"a.txt", "tmp/a.txt", "A!", (outName c3Env c3FS "a.txt").2⟩] ∧
    (stageLoop c3Env ⟨[], "tmp"⟩ c3FS ["a.txt", "b.txt", "c.txt"]).2.2.2 =
      some (IOErr.writeFail "tmp/b.txt") :=
  stage_failure_aborts c3Env c3FS "tmp" "a.txt" "b.txt" "c.txt" "A" "B" "A!" "B!"
    "a.txt" "tmp/a.txt" "b.txt" "tmp/b.txt" c3FS1
    (fun d => rfl) (by decide) (by decide) (by rfl) (by rfl) (by decide) rfl
    (by decide) (by decide) (by rfl) (by rfl) (by decide)

theorem processFile_env (env : EditEnv) (a : Bool) (r : String)
    (sa : StagingArea) (fs : FS) (fn : String) :
    processFile { env with applyChanges := a, response := r } sa fs fn =
      processFile env sa fs fn := rfl

theorem stageLoop_env (env : EditEnv) (a : Bool) (r : String)
    (sa : StagingArea) (fs : FS) (l : List String) :
    stageLoop { env with applyChanges := a, response := r } sa fs l =
      stageLoop env sa fs l := by
  induction l generalizing sa fs with
  | nil => rfl
  | cons fn rest ih =>
    unfold stageLoop
    rw [processFile_env]
    cases hp : processFile env sa fs fn with
    | error e => rfl
    | ok t => simp only [hp, ih]

/-- C4: with the `--yes` flag off, any answer other than `"y"` or `"Y"` is a
rejection — the workflow returns successfully, no path outside the staging
directory is written, and cleanup still empties the staging directory; the
explicit pre-approval flag bypasses the prompt and behaves exactly like an
explicit `"y"` answer. -/
theorem approval_gate_default_deny (env : EditEnv) (files : List String)
    (dir : String) (fs₀ : FS) (p q r : String)
    (hflag : env.applyChanges = false)
    (hy : (env.response == "y") = false)
    (hY : (env.response == "Y") = false)
    (hstage : (stageLoop env ⟨[], dir⟩ fs₀ files).2.2.2 = none)
    (hdiff : (ShowDiff env.diff (stageLoop env ⟨[], dir⟩ fs₀ files).1
        (stageLoop env ⟨[], dir⟩ fs₀ files).2.1).2.2 = none)
    (hp : underDir dir p = false)
    (hq : underDir dir q = true) :
    (editRunE env files dir fs₀).1 = .ok () ∧
    (editRunE env files dir fs₀).2.1.files p = fs₀.files p ∧
    (editRunE env files dir fs₀).2.1.files q = none ∧
    editRunE { env with applyChanges := true, response := r } files dir fs₀ =
      editRunE { env with applyChanges := false, response := "y" } files dir fs₀ := by
  have hbody : editBody env files ⟨[], dir⟩ fs₀ =
      (.ok (), (stageLoop env ⟨[], dir⟩ fs₀ files).1,
       (stageLoop env ⟨[], dir⟩ fs₀ files).2.1,
       (stageLoop env ⟨[], dir⟩ fs₀ files).2.2.1 ++
         (ShowDiff env.diff (stageLoop env ⟨[], dir⟩ fs₀ files).1
           (stageLoop env ⟨[], dir⟩ fs₀ files).2.1).1 ++
         ["Changes not applied."]) := by
    unfold editBody
    simp [hstage, hdiff, hflag, hy, hY]
  have hdirS : (stageLoop env ⟨[], dir⟩ fs₀ files).1.StagingDir = dir :=
    (stageLoop_shape env ⟨[], dir⟩ fs₀ files).1
  refine ⟨?_, ?_, ?_, ?_⟩
  · show (editBody env files ⟨[], dir⟩ fs₀).1 = .ok ()
    rw [hbody]
  · show (Cleanup (editBody env files ⟨[], dir⟩ fs₀).2.1
        (editBody env files ⟨[], dir⟩ fs₀).2.2.1).files p = fs₀.files p
    rw [hbody]
    simp [Cleanup, hdirS, hp]
    exact (stageLoop_shape env ⟨[], dir⟩ fs₀ files).2 p hp
  · show (Cleanup (editBody env files ⟨[], dir⟩ fs₀).2.1
        (editBody env files ⟨[], dir⟩ fs₀).2.2.1).files q = none
    rw [hbody]
    simp [Cleanup, hdirS, hq]
  · unfold editRunE editBody
    rw [stageLoop_env env true r, stageLoop_env env false "y"]
    simp

def c4FS : FS :=
  ⟨fun p => if p = "a.txt" then some "old" else none, fun _ => true, fun _ => true⟩

def c4Env : EditEnv :=
  ⟨fun _ c => some (c ++ "!"), "", "", false, "n",
   ⟨false, fun _ _ => 0, fun _ _ => 0⟩⟩

theorem approval_gate_default_deny_witness :
    (editRunE c4Env ["a.txt"] "tmp" c4FS).1 = .ok () ∧
    (editRunE c4Env ["a.txt"] "tmp" c4FS).2.1.files "a.txt" = c4FS.files "a.txt" ∧
    (editRunE c4Env ["a.txt"] "tmp" c4FS).2.1.files "tmp/a.txt" = none ∧
    editRunE { c4Env with applyChanges := true, response := "zzz" } ["a.txt"] "tmp" c4FS =
      editRunE { c4Env with applyChanges := false, response := "y" } ["a.txt"] "tmp" c4FS :=
  approval_gate_default_deny c4Env ["a.txt"] "tmp" c4FS "a.txt" "tmp/a.txt" "zzz"
    rfl (by decide) (by decide) (by decide) (by decide) (by decide) (by decide)

/-- C5: on every exit path of the edit workflow, cleanup runs exactly once
and removes everything inside the ephemeral staging directory — no input
leaves a trace under the staging directory. -/
theorem cleanup_exactly_once_no_trace (env : EditEnv) (files : List String)
    (dir : String) (fs₀ : FS) (q : String) (hq : underDir dir q = true) :
    (editRunE env files dir fs₀).2.2.2 = 1 ∧
    (editRunE env files dir fs₀).2.1.files q = none := by
  have hdir : (editBody env files ⟨[], dir⟩ fs₀).2.1.StagingDir = dir := by
    rw [editBody_sa]
    exact (stageLoop_shape env ⟨[], dir⟩ fs₀ files).1
  refine ⟨rfl, ?_⟩
  show (Cleanup (editBody env files ⟨[], dir⟩ fs₀).2.1
      (editBody env files ⟨[], dir⟩ fs₀).2.2.1).files q = none
  simp [Cleanup, hdir, hq]

theorem cleanup_exactly_once_no_trace_witness :
    underDir "tmp" "tmp/a.txt" = true ∧
    ((editRunE c4Env ["a.txt"] "tmp" c4FS).2.2.2 = 1 ∧
      (editRunE c4Env ["a.txt"] "tmp" c4FS).2.1.files "tmp/a.txt" = none) :=
  ⟨by decide,
   cleanup_exactly_once_no_trace c4Env ["a.txt"] "tmp" c4FS "tmp/a.txt" (by decide)⟩

/-- C6: for any sequence of `StageFile` calls, `ShowDiff` visits the staged
entries in exactly the order in which they were staged — the entry list is
append-only and the display loop walks it front to back. -/
theorem showDiff_staging_order (sa₀ : StagingArea) (fs₀ : FS)
    (reqs : List (String × String × Bool)) (denv : DiffEnv) (fs' : FS)
    (h1 : (stageSeq sa₀ fs₀ reqs).2.2 = none)
    (h2 : (ShowDiff denv (stageSeq sa₀ fs₀ reqs).1 fs').2.2 = none) :
    (ShowDiff denv (stageSeq sa₀ fs₀ reqs).1 fs').2.1 =
      sa₀.Files.map (fun f => f.OriginalPath) ++ reqs.map (fun r => r.1) := by
  unfold ShowDiff at h2 ⊢
  rw [showList_none_visits _ _ _ h2, stageSeq_none_paths _ _ _ h1]

def c6FS : FS :=
  ⟨fun p => if p = "a.txt" then some "old" else none, fun _ => true, fun _ => true⟩

def c6Diff : DiffEnv := ⟨false, fun _ _ => 0, fun _ _ => 0⟩

def c6FSview : FS :=
  ⟨fun p => if p = "a.txt" then some "old" else if p = "tmp/a.txt" then some "new"
      else if p = "tmp/b.txt" then some "B" else none,
   fun _ => true, fun _ => true⟩

theorem showDiff_staging_order_witness :
    (stageSeq ⟨[], "tmp"⟩ c6FS [("a.txt", "new", false), ("b.txt", "B", true)]).2.2 = none ∧
    (ShowDiff c6Diff
      (stageSeq ⟨[], "tmp"⟩ c6FS [("a.txt", "new", false), ("b.txt", "B", true)]).1
      c6FSview).2.1 = ["a.txt", "b.txt"] :=
  ⟨by decide,
   showDiff_staging_order ⟨[], "tmp"⟩ c6FS
     [("a.txt", "new", false), ("b.txt", "B", true)] c6Diff c6FSview
     (by decide) (by decide)⟩

/-- C7: for entries with `IsNew = true`, the diff loop never reads the
original path — its result does not depend on the filesystem at all — and
it renders the new-file marker followed by the full proposed content. -/
theorem showDiff_new_never_reads (denv : DiffEnv) (fs1 fs2 : FS)
    (l : List StagedFile) (hnew : ∀ f ∈ l, f.IsNew = true) :
    showList denv fs1 l = showList denv fs2 l ∧
    showList denv fs1 l =
      (newFileLines l, l.map (fun f => f.OriginalPath), none) := by
  have key : ∀ (m : List StagedFile), (∀ f ∈ m, f.IsNew = true) → ∀ fs : FS,
      showList denv fs m = (newFileLines m, m.map (fun f => f.OriginalPath), none) := by
    intro m
    induction m with
    | nil => intro _ fs; rfl
    | cons f rest ih =>
      intro hn fs
      have hf : f.IsNew = true := hn f (List.mem_cons_self f rest)
      have hr := ih (fun g hg => hn g (List.mem_cons_of_mem f hg)) fs
      simp [showList, hf, hr, newFileLines, highlightContent]
  exact ⟨by rw [key l hnew fs1, key l hnew fs2], key l hnew fs1⟩

def c7Entry : StagedFile := ⟨"greeting.txt", "tmp/greeting.txt", "hello", true⟩

def c7FSempty : FS := ⟨fun _ => none, fun _ => true, fun _ => true⟩

theorem showDiff_new_never_reads_witness :
    (∀ f ∈ [c7Entry], f.IsNew = true) ∧
    (showList c6Diff c7FSempty [c7Entry] = showList c6Diff c6FSview [c7Entry] ∧
      showList c6Diff c7FSempty [c7Entry] =
        (newFileLines [c7Entry], [c7Entry].map (fun f => f.OriginalPath), none)) ∧
    newFileLines [c7Entry] = ["New file: greeting.txt", "hello"] :=
  ⟨by decide,
   showDiff_new_never_reads c6Diff c7FSempty c6FSview [c7Entry] (by decide),
   by decide⟩

/-- C8: with the diff tool available, exit status 0 or 1 of either the
colored run or the colorless retry is success ("files differ" is not an
error); only both runs exiting with a status other than 0 and 1 (crash
included, exit code -1) yields an `IOErr`; with no diff tool, `displayDiff`
is exactly the manual fallback rendering. -/
theorem displayDiff_exit_codes (denv denvU : DiffEnv) (fs : FS)
    (orig staged : String)
    (ha : denv.diffAvailable = true)
    (hu : denvU.diffAvailable = false) :
    ((denv.colorExit orig staged = 0 ∨ denv.colorExit orig staged = 1 ∨
        denv.plainExit orig staged = 0 ∨ denv.plainExit orig staged = 1) →
      displayDiff denv fs orig staged = .ok []) ∧
    ((denv.colorExit orig staged ≠ 0 ∧ denv.colorExit orig staged ≠ 1 ∧
        denv.plainExit orig staged ≠ 0 ∧ denv.plainExit orig staged ≠ 1) →
      displayDiff denv fs orig staged = .error IOErr.diffFail) ∧
    displayDiff denvU fs orig staged = manualDiff fs orig staged := by
  refine ⟨?_, ?_, ?_⟩
  · intro h
    by_cases hc : denv.colorExit orig staged ≠ 0 ∧ denv.colorExit orig staged ≠ 1
    · have hp : denv.plainExit orig staged = 0 ∨ denv.plainExit orig staged = 1 := by
        rcases h with h | h | h | h
        · exact absurd h hc.1
        · exact absurd h hc.2
        · exact Or.inl h
        · exact Or.inr h
      rcases hp with h' | h'
      · simp [displayDiff, ha, hc, h']
      · simp [displayDiff, ha, hc, h']
    · simp [displayDiff, ha, hc]
  · rintro ⟨h1, h2, h3, h4⟩
    simp [displayDiff, ha, h1, h2, h3, h4]
  · simp [displayDiff, hu]

def c8Diff : DiffEnv := ⟨true, fun _ _ => 1, fun _ _ => 0⟩

theorem displayDiff_exit_codes_witness :
    ((c8Diff.colorExit "a.txt" "tmp/a.txt" = 0 ∨ c8Diff.colorExit "a.txt" "tmp/a.txt" = 1 ∨
        c8Diff.plainExit "a.txt" "tmp/a.txt" = 0 ∨ c8Diff.plainExit "a.txt" "tmp/a.txt" = 1) →
      displayDiff c8Diff c6FSview "a.txt" "tmp/a.txt" = .ok []) ∧
    ((c8Diff.colorExit "a.txt" "tmp/a.txt" ≠ 0 ∧ c8Diff.colorExit "a.txt" "tmp/a.txt" ≠ 1 ∧
        c8Diff.plainExit "a.txt" "tmp/a.txt" ≠ 0 ∧ c8Diff.plainExit "a.txt" "tmp/a.txt" ≠ 1) →
      displayDiff c8Diff c6FSview "a.txt" "tmp/a.txt" = .error IOErr.diffFail) ∧
    displayDiff c6Diff c6FSview "a.txt" "tmp/a.txt" = manualDiff c6FSview "a.txt" "tmp/a.txt" :=
  displayDiff_exit_codes c8Diff c6Diff c6FSview "a.txt" "tmp/a.txt" rfl rfl

/-- C9: staging two distinct original paths with the same basename makes the
second scratch write land on the first entry's scratch file (same staged
path), yet the first entry's in-memory record is unchanged, and a subsequent
`ApplyChanges` still writes each entry's own content to its own original
path — the in-memory content is authoritative. -/
theorem stage_basename_collision_content_authoritative
    (fs₀ : FS) (dir p1 p2 c1 c2 : String) (n1 n2 : Bool)
    (hm : ∀ d, fs₀.mkdirOk d = true)
    (hw : ∀ p, fs₀.writeOk p = true)
    (hbase : pathBase p1 = pathBase p2)
    (hne : p1 ≠ p2) :
    (stageSeq ⟨[], dir⟩ fs₀ [(p1, c1, n1), (p2, c2, n2)]).2.2 = none ∧
    (stageSeq ⟨[], dir⟩ fs₀ [(p1, c1, n1), (p2, c2, n2)]).1.Files =
      [⟨p1, pathJoin dir (pathBase p1), c1, n1⟩,
       ⟨p2, pathJoin dir (pathBase p1), c2, n2⟩] ∧
    (stageSeq ⟨[], dir⟩ fs₀ [(p1, c1, n1), (p2, c2, n2)]).2.1.files
      (pathJoin dir (pathBase p1)) = some c2 ∧
    (ApplyChanges (stageSeq ⟨[], dir⟩ fs₀ [(p1, c1, n1), (p2, c2, n2)]).1
      (stageSeq ⟨[], dir⟩ fs₀ [(p1, c1, n1), (p2, c2, n2)]).2.1).2.2 = none ∧
    (ApplyChanges (stageSeq ⟨[], dir⟩ fs₀ [(p1, c1, n1), (p2, c2, n2)]).1
      (stageSeq ⟨[], dir⟩ fs₀ [(p1, c1, n1), (p2, c2, n2)]).2.1).1.files p1 = some c1 ∧
    (ApplyChanges (stageSeq ⟨[], dir⟩ fs₀ [(p1, c1, n1), (p2, c2, n2)]).1
      (stageSeq ⟨[], dir⟩ fs₀ [(p1, c1, n1), (p2, c2, n2)]).2.1).1.files p2 = some c2 := by
  have hS1 := StageFile_allOk ⟨[], dir⟩ fs₀ p1 c1 n1 (hm _) (hw _)
  have hS2 := StageFile_allOk ⟨[⟨p1, pathJoin dir (pathBase p1), c1, n1⟩], dir⟩
      { fs₀ with files := fun q =>
          if q = pathJoin dir (pathBase p1) then some c1 else fs₀.files q }
      p2 c2 n2 (hm _) (hw _)
  rw [← hbase] at hS2
  have hseq : stageSeq ⟨[], dir⟩ fs₀ [(p1, c1, n1), (p2, c2, n2)] =
      (⟨[⟨p1, pathJoin dir (pathBase p1), c1, n1⟩,
         ⟨p2, pathJoin dir (pathBase p1), c2, n2⟩], dir⟩,
       { fs₀ with files := fun q =>
           if q = pathJoin dir (pathBase p1) then some c2
           else if q = pathJoin dir (pathBase p1) then some c1 else fs₀.files q },
       none) := by
    simp [stageSeq, hS1, hS2]
  rw [hseq]
  have hne' : p2 ≠ p1 := fun h => hne h.symm
  refine ⟨rfl, rfl, by simp, ?_, ?_, ?_⟩
  · simp [ApplyChanges, applyList, FS.mkdirAll, FS.write, hm, hw]
  · simp [ApplyChanges, applyList, FS.mkdirAll, FS.write, hm, hw, hne, hne']
  · simp [ApplyChanges, applyList, FS.mkdirAll, FS.write, hm, hw]

def c9FS : FS :=
  ⟨fun p => if p = "d1/same.txt" then some "one" else if p = "d2/same.txt" then some "two"
      else none,
   fun _ => true, fun _ => true⟩

theorem stage_basename_collision_witness :
    pathBase "d1/same.txt" = pathBase "d2/same.txt" ∧
    ((stageSeq ⟨[], "tmp"⟩ c9FS
        [("d1/same.txt", "A", false), ("d2/same.txt", "B", false)]).2.2 = none ∧
      (stageSeq ⟨[], "tmp"⟩ c9FS
        [("d1/same.txt", "A", false), ("d2/same.txt", "B", false)]).1.Files =
        [⟨"d1/same.txt", pathJoin "tmp" (pathBase "d1/same.txt"), "A", false⟩,
         ⟨"d2/same.txt", pathJoin "tmp" (pathBase "d1/same.txt"), "B", false⟩] ∧
      (stageSeq ⟨[], "tmp"⟩ c9FS
        [("d1/same.txt", "A", false), ("d2/same.txt", "B", false)]).2.1.files
        (pathJoin "tmp" (pathBase "d1/same.txt")) = some "B" ∧
      (ApplyChanges (stageSeq ⟨[], "tmp"⟩ c9FS
          [("d1/same.txt", "A", false), ("d2/same.txt", "B", false)]).1
        (stageSeq ⟨[], "tmp"⟩ c9FS
          [("d1/same.txt", "A", false), ("d2/same.txt", "B", false)]).2.1).2.2 = none ∧
      (ApplyChanges (stageSeq ⟨[], "tmp"⟩ c9FS
          [("d1/same.txt", "A", false), ("d2/same.txt", "B", false)]).1
        (stageSeq ⟨[], "tmp"⟩ c9FS
          [("d1/same.txt", "A", false), ("d2/same.txt", "B", false)]).2.1).1.files
        "d1/same.txt" = some "A" ∧
      (ApplyChanges (stageSeq ⟨[], "tmp"⟩ c9FS
          [("d1/same.txt", "A", false), ("d2/same.txt", "B", false)]).1
        (stageSeq ⟨[], "tmp"⟩ c9FS
          [("d1/same.txt", "A", false), ("d2/same.txt", "B", false)]).2.1).1.files
        "d2/same.txt" = some "B") :=
  ⟨by decide,
   stage_basename_collision_content_authoritative c9FS "tmp" "d1/same.txt" "d2/same.txt"
     "A" "B" false false (fun d => rfl) (fun p => rfl) (by decide) (by decide)⟩

/-- C10: the stdin sentinel `"-"` is always classified as new
(`fileExists "-"` is false unconditionally), and with no output directory
the destination is rewritten to the literal `"output.txt"`, so an approved
apply writes the generated content to `output.txt` and never to a file
named `"-"`. -/
theorem stdin_sentinel_writes_output_txt (env : EditEnv) (fs₀ : FS) (dir r : String)
    (hdir0 : env.outputDir = "")
    (hg : env.refactor "-" env.stdin = some r)
    (hm : ∀ d, fs₀.mkdirOk d = true)
    (hw : ∀ p, fs₀.writeOk p = true)
    (hscr : pathJoin dir "output.txt" ≠ "-") :
    fileExists fs₀ "-" = false ∧
    outName env fs₀ "-" = ("output.txt", true) ∧
    (stageLoop env ⟨[], dir⟩ fs₀ ["-"]).2.2.2 = none ∧
    (stageLoop env ⟨[], dir⟩ fs₀ ["-"]).1.Files =
      [⟨"output.txt", pathJoin dir "output.txt", r, true⟩] ∧
    (ApplyChanges (stageLoop env ⟨[], dir⟩ fs₀ ["-"]).1
      (stageLoop env ⟨[], dir⟩ fs₀ ["-"]).2.1).2.2 = none ∧
    (ApplyChanges (stageLoop env ⟨[], dir⟩ fs₀ ["-"]).1
      (stageLoop env ⟨[], dir⟩ fs₀ ["-"]).2.1).1.files "output.txt" = some r ∧
    (ApplyChanges (stageLoop env ⟨[], dir⟩ fs₀ ["-"]).1
      (stageLoop env ⟨[], dir⟩ fs₀ ["-"]).2.1).1.files "-" = fs₀.files "-" := by
  have hout : outName env fs₀ "-" = ("output.txt", true) := by
    simp [outName, fileExists, hdir0]
  have hpb : pathBase "output.txt" = "output.txt" := by decide
  have hS := StageFile_allOk ⟨[], dir⟩ fs₀ "output.txt" r true
    (hm _) (hw _)
  rw [hpb] at hS
  have hloop : stageLoop env ⟨[], dir⟩ fs₀ ["-"] =
      (⟨[⟨"output.txt", pathJoin dir "output.txt", r, true⟩], dir⟩,
       { fs₀ with files := fun q =>
           if q = pathJoin dir "output.txt" then some r else fs₀.files q },
       ["Processing file: " ++ "-", "✓ Processed " ++ "-"], none) := by
    have hproc : processFile env ⟨[], dir⟩ fs₀ "-" = .ok
        (⟨[⟨"output.txt", pathJoin dir "output.txt", r, true⟩], dir⟩,
         { fs₀ with files := fun q =>
             if q = pathJoin dir "output.txt" then some r else fs₀.files q },
         ["Processing file: " ++ "-", "✓ Processed " ++ "-"]) := by
      unfold processFile
      simp [ReadFileContent, hg, hout, hS]
    simp [stageLoop, hproc]
  rw [hloop]
  have hscr' : ("-" : String) ≠ pathJoin dir "output.txt" := fun h => hscr h.symm
  have hdash : ("-" : String) ≠ "output.txt" := by decide
  refine ⟨rfl, hout, rfl, rfl, ?_, ?_, ?_⟩
  · simp [ApplyChanges, applyList, FS.mkdirAll, FS.write, hm, hw]
  · simp [ApplyChanges, applyList, FS.mkdirAll, FS.write, hm, hw]
  · simp [ApplyChanges, applyList, FS.mkdirAll, FS.write, hm, hw, hdash, hscr']

def c10FS : FS := ⟨fun _ => none, fun _ => true, fun _ => true⟩

def c10Env : EditEnv :=
  ⟨fun _ c => some (c ++ "!"), "stdin content", "", true, "",
   ⟨false, fun _ _ => 0, fun _ _ => 0⟩⟩

theorem stdin_sentinel_writes_output_txt_witness :
    fileExists c10FS "-" = false ∧
    outName c10Env c10FS "-" = ("output.txt", true) ∧
    (stageLoop c10Env ⟨[], "tmp"⟩ c10FS ["-"]).2.2.2 = none ∧
    (stageLoop c10Env ⟨[], "tmp"⟩ c10FS ["-"]).1.Files =
      [⟨"output.txt", pathJoin "tmp" "output.txt", "stdin content!", true⟩] ∧
    (ApplyChanges (stageLoop c10Env ⟨[], "tmp"⟩ c10FS ["-"]).1
      (stageLoop c10Env ⟨[], "tmp"⟩ c10FS ["-"]).2.1).2.2 = none ∧
    (ApplyChanges (stageLoop c10Env ⟨[], "tmp"⟩ c10FS ["-"]).1
      (stageLoop c10Env ⟨[], "tmp"⟩ c10FS ["-"]).2.1).1.files "output.txt" =
      some "stdin content!" ∧
    (ApplyChanges (stageLoop c10Env ⟨[], "tmp"⟩ c10FS ["-"]).1
      (stageLoop c10Env ⟨[], "tmp"⟩ c10FS ["-"]).2.1).1.files "-" = c10FS.files "-" :=
  stdin_sentinel_writes_output_txt c10Env c10FS "tmp" "stdin content!"
    rfl (by rfl) (fun d => rfl) (fun p => rfl) (by decide)

end LlmTool
